import Mathlib

/-!
Shallow embedding of the POS order-entry front end (`src/src/app/page.jsx`).

The page keeps four pieces of React state: the staged `code`, `name` and
`price` (all strings bound to text inputs) and the `cart` (an array of line
objects `{ code, name, price, qty }`).  `handleAdd` guards on
`if (!name || !price) return;`, merges by `cart.find(item => item.code === code)`
(incrementing `qty` of the first match in place) or appends
`{ code, name, price: parseInt(price, 10), qty: 1 }`, then resets the three
staged strings.  `total` is recomputed on every render as
`cart.reduce((sum, item) => sum + item.price * item.qty, 0)`.

JavaScript numbers produced by `parseInt` may be `NaN` (when the string has no
leading integer); we model a JS number as `Option Int` with `none` for `NaN`,
and NaN-propagating addition and multiplication.
-/

set_option autoImplicit false

namespace POS

/-- One step of JS decimal-digit accumulation, as `parseInt` performs it. -/
def digitsToNat (ds : List Char) : Nat :=
  ds.foldl (fun acc c => acc * 10 + (c.toNat - 48)) 0

/-- Core of JS parseInt with radix 10, on a character list whose leading whitespace is gone:
an optional sign followed by the longest digit run; `none` models `NaN`. -/
def parseIntCore : List Char → Option Int
  | '-' :: rest =>
      let ds := rest.takeWhile Char.isDigit
      if ds.isEmpty then none else some (-(digitsToNat ds : Int))
  | '+' :: rest =>
      let ds := rest.takeWhile Char.isDigit
      if ds.isEmpty then none else some ((digitsToNat ds : Int))
  | cs =>
      let ds := cs.takeWhile Char.isDigit
      if ds.isEmpty then none else some ((digitsToNat ds : Int))

/-- JS `parseInt(s, 10)`: skip leading whitespace, then `parseIntCore`. -/
def parseIntJS (s : String) : Option Int :=
  parseIntCore (s.toList.dropWhile Char.isWhitespace)

/-- JS addition on numbers, with `none` as `NaN` (NaN propagates). -/
def jsAdd : Option Int → Option Int → Option Int
  | some a, some b => some (a + b)
  | _, _ => none

/-- JS multiplication on numbers, with `none` as `NaN` (NaN propagates). -/
def jsMul : Option Int → Option Int → Option Int
  | some a, some b => some (a * b)
  | _, _ => none

/-- One row of the purchase list: `{ code, name, price, qty }` as built by
`handleAdd`.  `price` is the result of `parseInt(price, 10)`, hence possibly
`NaN` (`none`). -/
structure CartLine where
  code : String
  name : String
  price : Option Int
  qty : Nat
  deriving Repr, DecidableEq

/-- The component state: the staged `code`, `name`, `price` strings and the
`cart` array, exactly the four `React.useState` cells of `POSApp`. -/
structure PosState where
  code : String
  name : String
  price : String
  cart : List CartLine
  deriving Repr, DecidableEq

/-- The initial state: three empty-string `useState` cells and an empty cart. -/
def initState : PosState := ⟨"", "", "", []⟩

/-- Increment (`existing.qty += 1`) of the first line matching `code`, as the aliasing
`cart.find` + in-place mutation does; every other line is untouched. -/
def incFirst (c : String) : List CartLine → List CartLine
  | [] => []
  | item :: rest =>
      if item.code == c then { item with qty := item.qty + 1 } :: rest
      else item :: incFirst c rest

/-- The `handleAdd` of the source: no-op when the staged name or price string is
empty (`if (!name || !price) return;`); otherwise merge into the first line
with the staged code, or append a fresh line with `qty = 1` and
`price: parseInt(price, 10)`; afterwards the three staged strings are reset. -/
def handleAdd (s : PosState) : PosState :=
  if s.name = "" ∨ s.price = "" then s
  else
    match s.cart.find? (fun item => item.code == s.code) with
    | some _ => { code := "", name := "", price := "", cart := incFirst s.code s.cart }
    | none =>
        { code := "", name := "", price := "",
          cart := s.cart ++ [{ code := s.code, name := s.name,
                               price := parseIntJS s.price, qty := 1 }] }

/-- The render-time `total`: `cart.reduce((sum, item) => sum + item.price * item.qty, 0)`,
recomputed from the current lines on every render. -/
def total (cart : List CartLine) : Option Int :=
  cart.foldl (fun sum item => jsAdd sum (jsMul item.price (some (item.qty : Int)))) (some 0)

/-- One operator add action: the staged strings the operator has entered at
the moment the 追加 button fires `handleAdd`. -/
structure AddEvent where
  code : String
  name : String
  price : String
  deriving Repr, DecidableEq

/-- Set the staged inputs from an event, then run `handleAdd`. -/
def applyEvent (s : PosState) (e : AddEvent) : PosState :=
  handleAdd { s with code := e.code, name := e.name, price := e.price }

/-- Run a sequence of add actions from a given state. -/
def runFrom (s : PosState) : List AddEvent → PosState
  | [] => s
  | e :: es => runFrom (applyEvent s e) es

/-- Run a sequence of add actions from the initial (empty-cart) state. -/
def runEvents (es : List AddEvent) : PosState :=
  runFrom initState es

/-- Number of cart lines carrying code `c`. -/
def countOf (c : String) (cart : List CartLine) : Nat :=
  cart.countP (fun l => l.code == c)

/-- Total quantity over the cart lines carrying code `c`. -/
def qtyOf (c : String) (cart : List CartLine) : Nat :=
  ((cart.filter (fun l => l.code == c)).map CartLine.qty).sum

/-- Append a code to an order-of-first-appearance list if it is new. -/
def insertNew (cs : List String) (c : String) : List String :=
  if c ∈ cs then cs else cs ++ [c]

/-- The distinct codes of a code sequence, in order of first appearance. -/
def firstAdds (cs : List String) : List String :=
  cs.foldl insertNew []

/-- A fetch call is modelled by the response it resolves to: `res.ok` is determined
by the status (`true` exactly for 200–299). -/
def resOk (status : Nat) : Bool :=
  200 ≤ status && status ≤ 299

/-- The product JSON body of a lookup response: the FastAPI backend returns
`{ prd_id, code, name, price }` on a match or `null` when nothing matches;
`none` models the `null` sentinel. -/
structure Product where
  prd_id : Int
  code : String
  name : String
  price : Int
  deriving Repr, DecidableEq

/-- A resolved lookup response: transport status plus parsed JSON body. -/
structure LookupResponse where
  status : Nat
  body : Option Product
  deriving Repr, DecidableEq

/-- The `fetchProductByCode` of the source: `if (!res.ok) throw Error(...)` with
the status in the message, else `return data` (which is `null` when the
backend found no product).  The thrown error is modelled as `Except.error`
carrying the status. -/
def fetchProductByCode (resp : LookupResponse) : Except Nat (Option Product) :=
  if resOk resp.status then Except.ok resp.body else Except.error resp.status

/-- The purchase JSON body: success flag and authoritative total amount. -/
structure PurchaseResult where
  success : Bool
  total_amount : Int
  deriving Repr, DecidableEq

/-- A resolved purchase response: transport status plus parsed JSON body. -/
structure PurchaseResponse where
  status : Nat
  body : PurchaseResult
  deriving Repr, DecidableEq

/-- The `postPurchase` of the source: `if (!res.ok) throw Error(...)` with the
status, else `return res.json()` — the body is handed back unchanged, its
`success` flag included; the function never reads or writes the cart. -/
def postPurchase (resp : PurchaseResponse) : Except Nat PurchaseResult :=
  if resOk resp.status then Except.ok resp.body else Except.error resp.status

/-- Modelled from the spec: the 購入 (purchase) button of the source has no
handler, so the checkout orchestration around `postPurchase` is absent from
`src`.  Per §4.3/§7 of the spec, checkout submits the cart, surfaces a
non-2xx status as a transport error, surfaces `success: false` under a 2xx
status as a logical purchase failure distinct from a transport error, and the
cart is cleared only on a confirmed purchase, staying intact on any failure. -/
inductive CheckoutOutcome where
  | transportError (status : Nat)
  | logicalFailure (r : PurchaseResult)
  | confirmed (r : PurchaseResult)
  deriving Repr, DecidableEq

/-- Modelled from the spec: the checkout orchestrator (§4.3) built on the
the `postPurchase` of the source.  A thrown transport error or a `success: false`
body leaves the state untouched; only a confirmed purchase clears the cart. -/
def checkout (s : PosState) (resp : PurchaseResponse) : PosState × CheckoutOutcome :=
  match postPurchase resp with
  | Except.error st => (s, CheckoutOutcome.transportError st)
  | Except.ok r =>
      if r.success then ({ s with cart := [] }, CheckoutOutcome.confirmed r)
      else (s, CheckoutOutcome.logicalFailure r)

/-- Modelled from the spec: `clear` (§4.2, "removes all lines") — no cart
reset exists in `src` because checkout is never wired to the button. -/
def clear (_cart : List CartLine) : List CartLine := []

/-! ### Basic lemmas about `handleAdd` and its helpers -/

theorem handleAdd_of_guard (s : PosState) (h : s.name = "" ∨ s.price = "") :
    handleAdd s = s := by
  unfold handleAdd
  rw [if_pos h]

theorem handleAdd_of_find_some (s : PosState) (hn : s.name ≠ "") (hp : s.price ≠ "")
    (x : CartLine) (hf : s.cart.find? (fun item => item.code == s.code) = some x) :
    handleAdd s = ⟨"", "", "", incFirst s.code s.cart⟩ := by
  unfold handleAdd
  rw [if_neg (by tauto), hf]

theorem handleAdd_of_find_none (s : PosState) (hn : s.name ≠ "") (hp : s.price ≠ "")
    (hf : s.cart.find? (fun item => item.code == s.code) = none) :
    handleAdd s =
      ⟨"", "", "", s.cart ++ [⟨s.code, s.name, parseIntJS s.price, 1⟩]⟩ := by
  unfold handleAdd
  rw [if_neg (by tauto), hf]

theorem find_code_none_iff (c : String) (cart : List CartLine) :
    cart.find? (fun item => item.code == c) = none ↔ ∀ l ∈ cart, l.code ≠ c := by
  rw [List.find?_eq_none]
  simp

theorem incFirst_map_code (c : String) (cart : List CartLine) :
    (incFirst c cart).map CartLine.code = cart.map CartLine.code := by
  induction cart with
  | nil => rfl
  | cons x rest ih =>
      cases hx : (x.code == c) <;> simp [incFirst, hx, ih]

theorem countOf_incFirst (c c' : String) (cart : List CartLine) :
    countOf c' (incFirst c cart) = countOf c' cart := by
  unfold countOf
  induction cart with
  | nil => rfl
  | cons x rest ih =>
      cases hx : (x.code == c) <;>
        simp [incFirst, hx, List.countP_cons, ih]

theorem qtyOf_incFirst (c : String) (cart : List CartLine)
    (h : ∃ l ∈ cart, l.code = c) :
    qtyOf c (incFirst c cart) = qtyOf c cart + 1 := by
  unfold qtyOf
  induction cart with
  | nil => simp at h
  | cons x rest ih =>
      cases hx : (x.code == c)
      · obtain ⟨l, hl, hlc⟩ := h
        rcases List.mem_cons.mp hl with heq | hl
        · subst heq
          simp [hlc] at hx
        · simp [incFirst, hx, List.filter_cons, ih ⟨l, hl, hlc⟩]
      · simp [incFirst, hx, List.filter_cons]
        omega

theorem qtyOf_append_line (c : String) (cart : List CartLine) (l : CartLine)
    (hl : l.code = c) :
    qtyOf c (cart ++ [l]) = qtyOf c cart + l.qty := by
  simp [qtyOf, List.filter_append, List.filter_cons, hl]

theorem countOf_eq_zero_of_absent (c : String) (cart : List CartLine)
    (h : ∀ l ∈ cart, l.code ≠ c) : countOf c cart = 0 := by
  unfold countOf
  rw [List.countP_eq_zero]
  intro l hl
  simp [h l hl]

theorem incFirst_append_of_first (c : String) (pre post : List CartLine) (l : CartLine)
    (hl : l.code = c) (hpre : ∀ x ∈ pre, x.code ≠ c) :
    incFirst c (pre ++ l :: post) = pre ++ { l with qty := l.qty + 1 } :: post := by
  induction pre with
  | nil => simp [incFirst, hl]
  | cons x rest ih =>
      have hx : (x.code == c) = false := by
        simp [hpre x (List.mem_cons_self x rest)]
      simp [incFirst, hx, ih (fun y hy => hpre y (List.mem_cons_of_mem x hy))]

theorem find_code_some_of_mem (c : String) (cart : List CartLine) (l : CartLine)
    (hl : l ∈ cart) (hlc : l.code = c) :
    ∃ x, cart.find? (fun item => item.code == c) = some x := by
  cases hf : cart.find? (fun item => item.code == c) with
  | none =>
      exact absurd hlc ((find_code_none_iff c cart).mp hf l hl)
  | some x => exact ⟨x, rfl⟩

/-! ### Claim theorems -/

/-- C3 counterexample: the guard `if (!name || !price) return;` only rejects
empty strings, so an add whose staged price is the negative string "-5" (with
a non-empty name) is NOT a no-op: it changes the line count of the cart. -/
theorem addLine_negative_price_not_noop :
    (handleAdd ⟨"49", "Tea", "-5", []⟩).cart.length
      ≠ (PosState.mk "49" "Tea" "-5" []).cart.length := by
  decide

/-- C3 (amended): an add whose staged name is empty or whose staged price is
the empty string is a no-op — the state is returned unchanged, so the
line count, line contents and subtotal of the cart are unchanged and no error is raised;
any non-empty price string (negative or non-numeric included) passes the
guard. -/
theorem addLine_guard_noop (s : PosState) (h : s.name = "" ∨ s.price = "") :
    handleAdd s = s ∧ total (handleAdd s).cart = total s.cart := by
  have he := handleAdd_of_guard s h
  exact ⟨he, by rw [he]⟩

theorem addLine_guard_noop_witness :
    handleAdd ⟨"49", "", "150", [⟨"A", "Tea", some 150, 1⟩]⟩
        = ⟨"49", "", "150", [⟨"A", "Tea", some 150, 1⟩]⟩ ∧
      total (handleAdd ⟨"49", "", "150", [⟨"A", "Tea", some 150, 1⟩]⟩).cart
        = total (PosState.mk "49" "" "150" [⟨"A", "Tea", some 150, 1⟩]).cart :=
  addLine_guard_noop ⟨"49", "", "150", [⟨"A", "Tea", some 150, 1⟩]⟩ (Or.inl rfl)

/-- C9: after `clear`, the list of lines is empty and the subtotal is 0. -/
theorem clear_resets_fully (cart : List CartLine) :
    clear cart = [] ∧ total (clear cart) = some 0 :=
  ⟨rfl, rfl⟩

/-- C7: a lookup response with a non-success transport status raises an error
carrying that status, while a successful response whose body is the `null`
not-found sentinel is returned as a normal result value, never as an error. -/
theorem lookup_error_taxonomy (resp : LookupResponse) :
    (resOk resp.status = false → fetchProductByCode resp = Except.error resp.status) ∧
    (resOk resp.status = true → resp.body = none →
      fetchProductByCode resp = Except.ok none) := by
  constructor
  · intro h
    simp [fetchProductByCode, h]
  · intro h hb
    simp [fetchProductByCode, h, hb]

theorem lookup_error_taxonomy_witness :
    fetchProductByCode ⟨503, none⟩ = Except.error 503 ∧
    fetchProductByCode ⟨200, none⟩ = Except.ok none :=
  ⟨(lookup_error_taxonomy ⟨503, none⟩).1 (by decide),
   (lookup_error_taxonomy ⟨200, none⟩).2 (by decide) rfl⟩

/-- C8: a purchase response with a 2xx status whose body carries
`success = false` is surfaced to the caller as a normal return carrying the
false success flag — a logical purchase failure the caller can read off the
flag — and never as a transport error. -/
theorem logical_failure_distinct (resp : PurchaseResponse)
    (hok : resOk resp.status = true) (hfail : resp.body.success = false) :
    (∃ r, postPurchase resp = Except.ok r ∧ r.success = false) ∧
      ∀ st : Nat, postPurchase resp ≠ Except.error st := by
  have h : postPurchase resp = Except.ok resp.body := by
    simp [postPurchase, hok]
  refine ⟨⟨resp.body, h, hfail⟩, fun st hc => ?_⟩
  rw [h] at hc
  exact Except.noConfusion hc

theorem logical_failure_distinct_witness :
    (∃ r, postPurchase ⟨200, ⟨false, 0⟩⟩ = Except.ok r ∧ r.success = false) ∧
      ∀ st : Nat, postPurchase ⟨200, ⟨false, 0⟩⟩ ≠ Except.error st :=
  logical_failure_distinct ⟨200, ⟨false, 0⟩⟩ (by decide) rfl

/-- C6: if the purchase submission fails — a non-2xx transport status or a
`success: false` body — the cart after the failed attempt is exactly the cart
before it: same lines, same contents, same order. -/
theorem checkout_failure_preserves_cart (s : PosState) (resp : PurchaseResponse)
    (h : resOk resp.status = false ∨ resp.body.success = false) :
    (checkout s resp).1.cart = s.cart := by
  rcases h with h | h
  · simp [checkout, postPurchase, h]
  · cases hok : resOk resp.status
    · simp [checkout, postPurchase, hok]
    · simp [checkout, postPurchase, hok, h]

theorem checkout_failure_preserves_cart_witness :
    (checkout ⟨"", "", "", [⟨"A", "Tea", some 150, 2⟩]⟩ ⟨500, ⟨true, 350⟩⟩).1.cart
      = (PosState.mk "" "" "" [⟨"A", "Tea", some 150, 2⟩]).cart :=
  checkout_failure_preserves_cart ⟨"", "", "", [⟨"A", "Tea", some 150, 2⟩]⟩
    ⟨500, ⟨true, 350⟩⟩ (Or.inl (by decide))

theorem total_foldl_aux : ∀ (cart : List CartLine) (a : Int),
    (∀ l ∈ cart, l.price ≠ none) →
    cart.foldl (fun sum item => jsAdd sum (jsMul item.price (some (item.qty : Int)))) (some a)
      = some (a + ((cart.map (fun l => l.price.getD 0 * (l.qty : Int))).sum)) := by
  intro cart
  induction cart with
  | nil =>
      intro a _
      simp
  | cons x rest ih =>
      intro a h
      obtain ⟨p, hp⟩ := Option.ne_none_iff_exists'.mp (h x (List.mem_cons_self x rest))
      have hstep : jsAdd (some a) (jsMul x.price (some (x.qty : Int)))
          = some (a + p * (x.qty : Int)) := by
        rw [hp]
        rfl
      rw [List.foldl_cons, hstep,
        ih (a + p * (x.qty : Int)) (fun l hl => h l (List.mem_cons_of_mem x hl))]
      simp only [List.map_cons, List.sum_cons, hp, Option.getD_some, Option.some.injEq]
      ring

/-- C2: the displayed subtotal is exactly the sum over the cart lines of
price times quantity; it is a function of the current lines alone, so it is
correct at every cart state, in particular after every mutation. -/
theorem subtotal_correct (cart : List CartLine)
    (h : ∀ l ∈ cart, l.price ≠ none) :
    total cart = some ((cart.map (fun l => l.price.getD 0 * (l.qty : Int))).sum) := by
  simpa [total] using total_foldl_aux cart 0 h

theorem subtotal_correct_witness :
    total [⟨"A", "Tea", some 150, 2⟩, ⟨"B", "Milk", some 200, 1⟩]
      = some ((([⟨"A", "Tea", some 150, 2⟩, ⟨"B", "Milk", some 200, 1⟩] :
          List CartLine).map (fun l => l.price.getD 0 * (l.qty : Int))).sum) :=
  subtotal_correct [⟨"A", "Tea", some 150, 2⟩, ⟨"B", "Milk", some 200, 1⟩] (by decide)

/-- C4: when a line with the staged code already exists, a non-guarded add
increments the quantity of that line by 1 and leaves its code, name and price as
they were from the first add — the other lines and the order are untouched. -/
theorem merge_first_write_wins (s : PosState) (pre post : List CartLine) (l : CartLine)
    (hs : s.cart = pre ++ l :: post) (hc : l.code = s.code)
    (hpre : ∀ x ∈ pre, x.code ≠ s.code)
    (hn : s.name ≠ "") (hp : s.price ≠ "") :
    (handleAdd s).cart = pre ++ { l with qty := l.qty + 1 } :: post := by
  have hmem : l ∈ s.cart := by
    rw [hs]
    exact List.mem_append_right pre (List.mem_cons_self l post)
  obtain ⟨x, hf⟩ := find_code_some_of_mem s.code s.cart l hmem hc
  rw [handleAdd_of_find_some s hn hp x hf]
  show incFirst s.code s.cart = pre ++ { l with qty := l.qty + 1 } :: post
  rw [hs]
  exact incFirst_append_of_first s.code pre post l hc hpre

theorem merge_first_write_wins_witness :
    (handleAdd ⟨"A", "NewName", "999", [⟨"A", "Tea", some 150, 1⟩]⟩).cart
      = [⟨"A", "Tea", some 150, 2⟩] :=
  merge_first_write_wins ⟨"A", "NewName", "999", [⟨"A", "Tea", some 150, 1⟩]⟩
    [] [] ⟨"A", "Tea", some 150, 1⟩ rfl rfl
    (fun x hx => absurd hx (List.not_mem_nil x)) (by decide) (by decide)

theorem countOf_append_line (c : String) (cart : List CartLine) (l : CartLine)
    (hl : l.code = c) :
    countOf c (cart ++ [l]) = countOf c cart + 1 := by
  simp [countOf, List.countP_append, List.countP_cons, hl]

theorem countOf_pos_of_mem (c : String) (cart : List CartLine) (l : CartLine)
    (hl : l ∈ cart) (hlc : l.code = c) : 0 < countOf c cart := by
  unfold countOf
  rw [List.countP_pos_iff]
  exact ⟨l, hl, by simp [hlc]⟩

theorem addLine_qty_count (s : PosState) (hn : s.name ≠ "") (hp : s.price ≠ "") :
    qtyOf s.code (handleAdd s).cart = qtyOf s.code s.cart + 1 ∧
      countOf s.code (handleAdd s).cart = max 1 (countOf s.code s.cart) := by
  cases hf : s.cart.find? (fun item => item.code == s.code) with
  | none =>
      rw [handleAdd_of_find_none s hn hp hf]
      have habs : ∀ l ∈ s.cart, l.code ≠ s.code := (find_code_none_iff s.code s.cart).mp hf
      have hzero : countOf s.code s.cart = 0 := countOf_eq_zero_of_absent s.code s.cart habs
      constructor
      · show qtyOf s.code (s.cart ++ [⟨s.code, s.name, parseIntJS s.price, 1⟩]) = _
        rw [qtyOf_append_line s.code s.cart _ rfl]
      · show countOf s.code (s.cart ++ [⟨s.code, s.name, parseIntJS s.price, 1⟩]) = _
        rw [countOf_append_line s.code s.cart _ rfl, hzero]
        omega
  | some x =>
      rw [handleAdd_of_find_some s hn hp x hf]
      have hxm : x ∈ s.cart := List.mem_of_find?_eq_some hf
      have hxc : x.code = s.code := by
        have := List.find?_some hf
        simpa using this
      have hex : ∃ l ∈ s.cart, l.code = s.code := ⟨x, hxm, hxc⟩
      have hpos : 0 < countOf s.code s.cart := countOf_pos_of_mem s.code s.cart x hxm hxc
      constructor
      · show qtyOf s.code (incFirst s.code s.cart) = _
        exact qtyOf_incFirst s.code s.cart hex
      · show countOf s.code (incFirst s.code s.cart) = _
        rw [countOf_incFirst s.code s.code s.cart]
        omega

/-- C10: the guard reads only the staged name and price, never the staged
code, so an add with empty code but non-empty name and price takes effect: it
creates a line keyed by the empty-string code (the line count for code ""
goes from 0 to 1 and otherwise stays), and its total quantity rises by 1
exactly as for any other code. -/
theorem empty_code_accepted (s : PosState) (hc : s.code = "")
    (hn : s.name ≠ "") (hp : s.price ≠ "") :
    qtyOf "" (handleAdd s).cart = qtyOf "" s.cart + 1 ∧
      countOf "" (handleAdd s).cart = max 1 (countOf "" s.cart) := by
  rw [← hc]
  exact addLine_qty_count s hn hp

theorem empty_code_accepted_witness :
    qtyOf "" (handleAdd ⟨"", "Tea", "150", []⟩).cart
        = qtyOf "" (PosState.mk "" "Tea" "150" []).cart + 1 ∧
      countOf "" (handleAdd ⟨"", "Tea", "150", []⟩).cart
        = max 1 (countOf "" (PosState.mk "" "Tea" "150" []).cart) :=
  empty_code_accepted ⟨"", "Tea", "150", []⟩ rfl (by decide) (by decide)

theorem runFrom_singleton (c : String) :
    ∀ (es : List AddEvent) (l : CartLine) (s : PosState),
      l.code = c →
      (∀ e ∈ es, e.code = c ∧ e.name ≠ "" ∧ e.price ≠ "") →
      s.cart = [l] →
      (runFrom s es).cart = [{ l with qty := l.qty + es.length }] := by
  intro es
  induction es with
  | nil =>
      intro l s hl _ hs
      simpa [runFrom] using hs
  | cons e rest ih =>
      intro l s hl hval hs
      obtain ⟨hec, hen, hep⟩ := hval e (List.mem_cons_self e rest)
      have hf : s.cart.find? (fun item => item.code == e.code) = some l := by
        rw [hs]
        exact List.find?_cons_of_pos _ (by simp [hl, hec])
      have hcart : (applyEvent s e).cart = [{ l with qty := l.qty + 1 }] := by
        show (handleAdd { s with code := e.code, name := e.name, price := e.price }).cart = _
        rw [handleAdd_of_find_some _ hen hep l hf]
        show incFirst e.code s.cart = _
        rw [hs]
        simp [incFirst, hl, hec]
      have hrec := ih { l with qty := l.qty + 1 } (applyEvent s e) hl
        (fun e' he' => hval e' (List.mem_cons_of_mem e he')) hcart
      show (runFrom (applyEvent s e) rest).cart = _
      rw [hrec]
      simp only [List.length_cons, List.cons.injEq, and_true, CartLine.mk.injEq,
        true_and]
      omega

theorem countOf_handleAdd_of_present (s : PosState) (c' : String)
    (hm : c' ∈ s.cart.map CartLine.code) :
    countOf c' (handleAdd s).cart = countOf c' s.cart := by
  by_cases hg : s.name = "" ∨ s.price = ""
  · rw [handleAdd_of_guard s hg]
  · push_neg at hg
    cases hf : s.cart.find? (fun item => item.code == s.code) with
    | some x =>
        rw [handleAdd_of_find_some s hg.1 hg.2 x hf]
        exact countOf_incFirst s.code c' s.cart
    | none =>
        rw [handleAdd_of_find_none s hg.1 hg.2 hf]
        have habs := (find_code_none_iff s.code s.cart).mp hf
        obtain ⟨l, hl, hlc⟩ := List.mem_map.mp hm
        have hne : s.code ≠ c' := fun heq => habs l hl (hlc.trans heq.symm)
        show countOf c' (s.cart ++ [⟨s.code, s.name, parseIntJS s.price, 1⟩]) = _
        simp [countOf, List.countP_append, List.countP_cons, hne]

/-- C1: from the empty cart, a sequence of non-guarded adds all carrying the
same code yields a cart with exactly one line for that code, whose quantity
is the number of calls; and an add whose staged code is already present never
changes the number of lines carrying any code already in the cart. -/
theorem merge_single_code (c : String) (e : AddEvent) (es : List AddEvent)
    (h : ∀ x ∈ e :: es, x.code = c ∧ x.name ≠ "" ∧ x.price ≠ "")
    (s : PosState) (c' : String) (hm : c' ∈ s.cart.map CartLine.code) :
    (runEvents (e :: es)).cart = [⟨c, e.name, parseIntJS e.price, es.length + 1⟩] ∧
      countOf c' (handleAdd s).cart = countOf c' s.cart := by
  refine ⟨?_, countOf_handleAdd_of_present s c' hm⟩
  obtain ⟨hec, hen, hep⟩ := h e (List.mem_cons_self e es)
  have hfirst : (applyEvent initState e).cart = [⟨e.code, e.name, parseIntJS e.price, 1⟩] := by
    show (handleAdd ⟨e.code, e.name, e.price, []⟩).cart = _
    rw [handleAdd_of_find_none ⟨e.code, e.name, e.price, []⟩ hen hep rfl]
    rfl
  have hrun := runFrom_singleton c es ⟨e.code, e.name, parseIntJS e.price, 1⟩
    (applyEvent initState e) hec (fun x hx => h x (List.mem_cons_of_mem e hx)) hfirst
  show (runFrom (applyEvent initState e) es).cart = _
  rw [hrun]
  simp only [List.cons.injEq, and_true, CartLine.mk.injEq, true_and, and_self, hec]
  omega

theorem merge_single_code_witness :
    (runEvents [⟨"A", "Tea", "150"⟩, ⟨"A", "Tea", "150"⟩]).cart
        = [⟨"A", "Tea", parseIntJS "150", 2⟩] ∧
      countOf "B" (handleAdd ⟨"", "x", "5", [⟨"B", "Milk", some 200, 1⟩]⟩).cart
        = countOf "B" (PosState.mk "" "x" "5" [⟨"B", "Milk", some 200, 1⟩]).cart :=
  merge_single_code "A" ⟨"A", "Tea", "150"⟩ [⟨"A", "Tea", "150"⟩] (by decide)
    ⟨"", "x", "5", [⟨"B", "Milk", some 200, 1⟩]⟩ "B" (by decide)

theorem runFrom_append (es es' : List AddEvent) :
    ∀ s : PosState, runFrom s (es ++ es') = runFrom (runFrom s es) es' := by
  induction es with
  | nil => intro s; rfl
  | cons e rest ih => intro s; exact ih (applyEvent s e)

theorem applyEvent_codes (s : PosState) (e : AddEvent)
    (hen : e.name ≠ "") (hep : e.price ≠ "") :
    (applyEvent s e).cart.map CartLine.code
      = insertNew (s.cart.map CartLine.code) e.code := by
  unfold insertNew
  cases hf : s.cart.find? (fun item => item.code == e.code) with
  | some x =>
      have hxc : x.code = e.code := by simpa using List.find?_some hf
      have hmem : e.code ∈ s.cart.map CartLine.code :=
        List.mem_map.mpr ⟨x, List.mem_of_find?_eq_some hf, hxc⟩
      rw [if_pos hmem]
      show (handleAdd ⟨e.code, e.name, e.price, s.cart⟩).cart.map CartLine.code = _
      rw [handleAdd_of_find_some _ hen hep x hf]
      exact incFirst_map_code e.code s.cart
  | none =>
      have habs := (find_code_none_iff e.code s.cart).mp hf
      have hmem : e.code ∉ s.cart.map CartLine.code := by
        intro hmem
        obtain ⟨l, hl, hlc⟩ := List.mem_map.mp hmem
        exact habs l hl hlc
      rw [if_neg hmem]
      show (handleAdd ⟨e.code, e.name, e.price, s.cart⟩).cart.map CartLine.code = _
      rw [handleAdd_of_find_none _ hen hep hf]
      simp

theorem runFrom_codes : ∀ (es : List AddEvent) (s : PosState),
    (∀ x ∈ es, x.name ≠ "" ∧ x.price ≠ "") →
    (runFrom s es).cart.map CartLine.code
      = (es.map AddEvent.code).foldl insertNew (s.cart.map CartLine.code) := by
  intro es
  induction es with
  | nil =>
      intro s _
      rfl
  | cons e rest ih =>
      intro s h
      obtain ⟨hen, hep⟩ := h e (List.mem_cons_self e rest)
      show (runFrom (applyEvent s e) rest).cart.map CartLine.code = _
      rw [ih (applyEvent s e) (fun x hx => h x (List.mem_cons_of_mem e hx)),
        applyEvent_codes s e hen hep]
      rfl

/-- C5: for a sequence of non-guarded adds from the empty cart, the codes
of the cart are exactly the distinct event codes in order of first appearance
(merges of an existing code never move a line), and an add with a code not
yet in the cart appends a fresh line with quantity 1 at the end. -/
theorem order_preservation (es : List AddEvent)
    (h : ∀ x ∈ es, x.name ≠ "" ∧ x.price ≠ "")
    (e : AddEvent) (hen : e.name ≠ "") (hep : e.price ≠ "")
    (hnew : e.code ∉ (runEvents es).cart.map CartLine.code) :
    (runEvents es).cart.map CartLine.code = firstAdds (es.map AddEvent.code) ∧
      (runEvents (es ++ [e])).cart
        = (runEvents es).cart ++ [⟨e.code, e.name, parseIntJS e.price, 1⟩] := by
  constructor
  · exact runFrom_codes es initState h
  · rw [runEvents, runFrom_append es [e] initState]
    have habs : ∀ l ∈ (runFrom initState es).cart, l.code ≠ e.code := by
      intro l hl hlc
      exact hnew (List.mem_map.mpr ⟨l, hl, hlc⟩)
    have hf : (runFrom initState es).cart.find? (fun item => item.code == e.code) = none :=
      (find_code_none_iff e.code _).mpr habs
    show (handleAdd ⟨e.code, e.name, e.price, (runFrom initState es).cart⟩).cart = _
    rw [handleAdd_of_find_none ⟨e.code, e.name, e.price, (runFrom initState es).cart⟩ hen hep hf]
    rfl

theorem order_preservation_witness :
    (runEvents [⟨"A", "Tea", "150"⟩, ⟨"A", "Tea", "150"⟩]).cart.map CartLine.code
        = firstAdds (([⟨"A", "Tea", "150"⟩, ⟨"A", "Tea", "150"⟩] :
            List AddEvent).map AddEvent.code) ∧
      (runEvents ([⟨"A", "Tea", "150"⟩, ⟨"A", "Tea", "150"⟩] ++ [⟨"B", "Milk", "200"⟩])).cart
        = (runEvents [⟨"A", "Tea", "150"⟩, ⟨"A", "Tea", "150"⟩]).cart
            ++ [⟨"B", "Milk", parseIntJS "200", 1⟩] :=
  order_preservation [⟨"A", "Tea", "150"⟩, ⟨"A", "Tea", "150"⟩] (by decide)
    ⟨"B", "Milk", "200"⟩ (by decide) (by decide) (by decide)

example : parseIntJS "150" = some 150 := by decide
example : parseIntJS "-5" = some (-5) := by decide
example : parseIntJS "abc" = none := by decide
example : parseIntJS " 12xy" = some 12 := by decide
example :
    (handleAdd ⟨"A", "Tea", "150", []⟩).cart = [⟨"A", "Tea", some 150, 1⟩] := by decide
example : handleAdd ⟨"A", "", "150", []⟩ = ⟨"A", "", "150", []⟩ := by decide
example : total [⟨"A", "Tea", some 150, 2⟩, ⟨"B", "Milk", some 200, 1⟩] = some 500 := by
  decide

end POS
